import Mathlib

/-!
Verification of `dvd/video_utils.py` (video ingestion, subtitle conversion,
frame extraction) against its natural-language specification.

The Python source is shallowly embedded:
* the filesystem is a map from path strings to entries (file contents or
  directories), and the local-file branch of `load_video` is a function from
  a filesystem state to a new state plus a Python-style outcome
  (`Except` for a raised exception, `Option String` for the return value,
  `none` modelling Python's `None`);
* string helpers (`strip`, `startswith`, `endswith`, `in`, `split`,
  `join`, `lower`, zero-padded decimal formatting) are re-implemented over
  `List Char` exactly following their Python semantics on the inputs the
  program uses;
* floating-point frame rates are modelled as rationals, with Python 3
  `round` (round half to even) made explicit;
* the frame-decoding loop of `decode_video_to_frames` is a structural
  recursion over the number of frames the decoder yields.

Configuration constants (`config.VIDEO_DATABASE_FOLDER`, `config.VIDEO_FPS`)
are universally quantified parameters (`root`, `targetFps`).
-/

set_option linter.unusedVariables false

/-! ### Python string primitives over `List Char` -/

/-- Python `str.startswith`: is the first list a prefix of the second. -/
def startsWithL : List Char → List Char → Bool
  | [], _ => true
  | _ :: _, [] => false
  | p :: ps, c :: cs => p == c && startsWithL ps cs

/-- Python `str.endswith`: is the first list a suffix of the second. -/
def endsWithL (pat s : List Char) : Bool :=
  startsWithL pat.reverse s.reverse

/-- Python `in` on strings: does `pat` occur as a contiguous run in `s`. -/
def containsSub (pat : List Char) : List Char → Bool
  | [] => startsWithL pat []
  | c :: rest => startsWithL pat (c :: rest) || containsSub pat rest

/-- The whitespace characters removed by Python `str.strip()`. -/
def isPySpace (c : Char) : Bool :=
  c == ' ' || c == '\t' || c == '\n' || c == '\r' || c == '\x0b' || c == '\x0c'

/-- Python `str.strip()`. -/
def stripL (s : List Char) : List Char :=
  ((s.dropWhile isPySpace).reverse.dropWhile isPySpace).reverse

/-- Python `str.lower()` (ASCII case folding, as used on URLs and paths). -/
def lowerL (s : List Char) : List Char :=
  s.map Char.toLower

/-- Python `content.split(sep)` for the single-character separator `'\n'`. -/
def splitNL : List Char → List (List Char)
  | [] => [[]]
  | c :: rest =>
    if c == '\n' then [] :: splitNL rest
    else
      match splitNL rest with
      | l :: ls => (c :: l) :: ls
      | [] => [[c]]

/-- Python `'\n'.join(lines)`. -/
def joinNL : List (List Char) → List Char
  | [] => []
  | [l] => l
  | l :: ls => l ++ '\n' :: joinNL ls

/-- Decimal digit character. -/
def digitChar (d : Nat) : Char := Char.ofNat (48 + d)

/-- Fuel-driven decimal rendering; `fuel` bounds the number of digits. -/
def toDecimalAux : Nat → Nat → List Char
  | 0, _ => []
  | fuel + 1, n =>
    if n < 10 then [digitChar n]
    else toDecimalAux fuel (n / 10) ++ [digitChar (n % 10)]

/-- Python `str(n)` for a non-negative integer `n`. -/
def toDecimal (n : Nat) : List Char := toDecimalAux (n + 1) n

/-! ### Paths and the filesystem model -/

/-- `os.path.join(a, b)` for a relative name `b` and a root with no trailing
slash, the only shapes `video_utils.py` joins. -/
def pathJoin (a b : String) : String := a ++ "/" ++ b

/-- `os.path.basename`: everything after the last slash. -/
def basenameL (s : List Char) : List Char :=
  (s.reverse.takeWhile (fun c => c != '/')).reverse

/-- `os.path.basename` on strings. -/
def basenameStr (s : String) : String := ⟨basenameL s.data⟩

/-- The stem of `os.path.splitext(name)`: the name with its extension cut at
the last dot, except that a name whose every character before that dot is a
dot (such as `.bashrc`) has no extension. -/
def splitExtStem (name : List Char) : List Char :=
  match name.reverse.span (fun c => c != '.') with
  | (_, '.' :: stemRev) => if stemRev.all (fun c => c == '.') then name else stemRev.reverse
  | _ => name

/-- A filesystem entry: a regular file with its byte content, or a directory. -/
inductive Entry where
  | file (content : List Nat) : Entry
  | dir : Entry
deriving DecidableEq, Repr

/-- A filesystem state: a partial map from absolute-or-relative path strings
to entries.  `none` means the path does not exist. -/
def FS : Type := String → Option Entry

/-- Write one entry (file creation or overwrite, directory creation). -/
def fsWrite (fs : FS) (p : String) (e : Entry) : FS :=
  fun q => if q = p then some e else fs q

/-- `os.makedirs(path, exist_ok=True)`: create the directory unless the path
already exists. -/
def mkdirs (fs : FS) (p : String) : FS :=
  match fs p with
  | some _ => fs
  | none => fsWrite fs p Entry.dir

/-- A raised Python exception, by class.  (Messages are elided.) -/
inductive PyError where
  | valueError : PyError
  | fileNotFoundError : PyError
  | sameFileError : PyError
deriving DecidableEq, Repr

/-! ### `_is_youtube_url` (video_utils.py lines 11-14) -/

/-- May a character appear in a URL scheme after the first (letters, digits,
`+`, `-`, `.`), per `urllib.parse`. -/
def isSchemeTailChar (c : Char) : Bool :=
  c.isAlpha || c.isDigit || c == '+' || c == '-' || c == '.'

/-- Split a character list at the first `':'`; the second component starts
with the colon when one occurs. -/
def splitColon : List Char → List Char × List Char
  | [] => ([], [])
  | c :: rest =>
    if c = ':' then ([], c :: rest)
    else
      let p := splitColon rest
      (c :: p.1, p.2)

/-- Strip a leading `scheme:` from a URL when the prefix before the first
colon is a valid scheme (nonempty, leading letter, scheme characters), as
`urllib.parse.urlsplit` does; otherwise return the input unchanged. -/
def schemeRest (s : List Char) : List Char :=
  let p := splitColon s
  match p.2 with
  | ':' :: tail =>
    match p.1 with
    | [] => s
    | c :: cs => if c.isAlpha && (c :: cs).all isSchemeTailChar then tail else s
  | _ => s

/-- May a character appear in the authority (netloc) component: everything up
to the first `'/'`, `'?'` or `'#'`. -/
def netChar (c : Char) : Bool :=
  !(c == '/' || c == '?' || c == '#')

/-- `urllib.parse.urlparse(url).netloc`: after the scheme, an authority is
present only behind `//` and extends to the next `/`, `?` or `#`. -/
def netlocL (s : List Char) : List Char :=
  match schemeRest s with
  | '/' :: '/' :: rest => rest.takeWhile netChar
  | _ => []

/-- `_is_youtube_url` (video_utils.py lines 11-14):
`urlparse(url).netloc.lower().endswith(('youtube.com', 'youtu.be'))`. -/
def isYoutubeUrl (url : String) : Bool :=
  let n := lowerL (netlocL url.data)
  endsWithL "youtube.com".data n || endsWithL "youtu.be".data n

/-! ### `load_video`, local-source branch (video_utils.py lines 38-39, 89-111)

The YouTube branch (lines 42-87) performs a network download through
`yt_dlp` and is outside the embedding; the dispatch test that selects it is
`isUrlSource`. -/

/-- The `video_source.startswith(('http://', 'https://'))` dispatch
(video_utils.py line 42). -/
def isUrlSource (s : String) : Bool :=
  startsWithL "http://".data s.data || startsWithL "https://".data s.data

/-- `load_video` for a non-URL source (video_utils.py lines 38-39 and
89-111): create `{root}/raw`, and when the source path names an existing
file, copy it to `{root}/raw/{basename}` (`shutil.copy2`, which raises
`SameFileError` when destination and source are the same path); when
`with_subtitle` is set, validate `subtitle_source` (truthy, `.srt` suffix
after lowercasing, an existing file) and copy it to
`{root}/raw/{stem}.srt`.  The result pairs the filesystem state at exit
(writes before a raise persist) with either the raised exception or the
returned value; the function body has no `return` statement on this branch,
so the returned value is Python's `None`, modelled as `none`. -/
def loadVideoLocal (root : String) (fs : FS) (videoSource : String)
    (withSubtitle : Bool) (subtitleSource : Option String) :
    FS × Except PyError (Option String) :=
  let rawVideoDir := pathJoin root "raw"
  let fs1 := mkdirs fs rawVideoDir
  match fs1 videoSource with
  | none => (fs1, Except.ok none)
  | some Entry.dir => (fs1, Except.error PyError.valueError)
  | some (Entry.file content) =>
    let filename := basenameStr videoSource
    let destinationPath := pathJoin rawVideoDir filename
    if destinationPath = videoSource then (fs1, Except.error PyError.sameFileError)
    else
      let fs2 := fsWrite fs1 destinationPath (Entry.file content)
      if withSubtitle then
        match subtitleSource with
        | none => (fs2, Except.error PyError.valueError)
        | some subSrc =>
          if subSrc = "" then (fs2, Except.error PyError.valueError)
          else if endsWithL ".srt".data (lowerL subSrc.data) = false then
            (fs2, Except.error PyError.valueError)
          else
            match fs2 subSrc with
            | some (Entry.file subContent) =>
              let subtitleDestination :=
                pathJoin rawVideoDir ⟨splitExtStem filename.data ++ ".srt".data⟩
              if subtitleDestination = subSrc then
                (fs2, Except.error PyError.sameFileError)
              else
                (fsWrite fs2 subtitleDestination (Entry.file subContent), Except.ok none)
            | _ => (fs2, Except.error PyError.fileNotFoundError)
      else (fs2, Except.ok none)

/-- A one-file filesystem holding the local video `clip.mp4`. -/
def demoFS : FS :=
  fun p => if p = "clip.mp4" then some (Entry.file [104, 105, 0, 255]) else none

/-- The empty filesystem. -/
def emptyFS : FS := fun _ => none

/-! ### `decode_video_to_frames` (video_utils.py lines 636-680) -/

/-- Python 3 `round` on a rational: nearest integer, ties to the even one. -/
def rndHalfEven (q : ℚ) : ℤ :=
  let n := ⌊q⌋
  let frac := q - n
  if frac < 1/2 then n
  else if 1/2 < frac then n + 1
  else if 2 ∣ n then n else n + 1

/-- `frame_interval = int(round(fps / target_fps)) if target_fps < fps else 1`
(video_utils.py line 665), with the reported source rate and the configured
target rate as rationals. -/
def frameInterval (fps targetFps : ℚ) : ℤ :=
  if targetFps < fps then rndHalfEven (fps / targetFps) else 1

/-- The sampling stride as the natural number used by `frame_count %
frame_interval`. -/
def frameIntervalN (fps targetFps : ℚ) : ℕ := (frameInterval fps targetFps).toNat

/-- Character list of the filename written for the `sc`-th saved frame:
`f"frame_n{sc:06d}.jpg"` (video_utils.py line 674); `:06d` zero-pads the
decimal rendering on the left to a minimum width of six. -/
def frameNameL (sc : ℕ) : List Char :=
  let digits := toDecimal sc
  "frame_n".data ++ (List.replicate (6 - digits.length) '0' ++ digits) ++ ".jpg".data

/-- The filename written for the `sc`-th saved frame. -/
def frameName (sc : ℕ) : String := ⟨frameNameL sc⟩

/-- The decode loop (video_utils.py lines 667-677): `n` frames remain to be
read, `fc` is `frame_count`, `sc` is `saved_count`; a frame is written
whenever `fc % I = 0`, and the list of written filenames is returned in
order. -/
def decodeGo (I : ℕ) : ℕ → ℕ → ℕ → List String
  | 0, _, _ => []
  | n + 1, fc, sc =>
    if fc % I = 0 then frameName sc :: decodeGo I n (fc + 1) (sc + 1)
    else decodeGo I n (fc + 1) sc

/-- Filenames written by `decode_video_to_frames` on a video the decoder
yields `n` frames for, at stride `I`, in the order written. -/
def decodeFrames (n I : ℕ) : List String := decodeGo I n 0 0

/-- How many of the `n` loop iterations starting at `frame_count = fc` save a
frame. -/
def cnt (I : ℕ) : ℕ → ℕ → ℕ
  | 0, _ => 0
  | n + 1, fc => (if fc % I = 0 then 1 else 0) + cnt I n (fc + 1)

/-- Number of frames saved from a video of `n` decoded frames at stride `I`. -/
def savedCount (n I : ℕ) : ℕ := cnt I n 0

/-! ### VTT-to-SRT conversion inside `download_srt_subtitle`
(video_utils.py lines 379-406) -/

/-- The inner `while` (video_utils.py lines 398-401): consume the following
lines as cue text while they strip to something nonempty and do not contain
`-->`; return the stripped text lines and the remaining input. -/
def takeText : List String → List String × List String
  | [] => ([], [])
  | l :: rest =>
    if stripL l.data ≠ [] ∧ containsSub "-->".data l.data = false then
      let p := takeText rest
      (⟨stripL l.data⟩ :: p.1, p.2)
    else ([], l :: rest)

/-- The outer `while` (video_utils.py lines 386-405), driven by fuel that
bounds the number of iterations (each iteration consumes at least one input
line, so the initial line count suffices): skip blank lines and `WEBVTT` /
`NOTE` / `Kind:` headers; at a line containing `-->` emit the entry counter,
the stripped timestamp line verbatim, the joined cue text, and a blank
line. -/
def vttLoop : ℕ → List String → ℕ → List String
  | 0, _, _ => []
  | fuel + 1, lines, counter =>
    match lines with
    | [] => []
    | l :: rest =>
      let s := stripL l.data
      if s = [] ∨ startsWithL "WEBVTT".data s ∨ startsWithL "NOTE".data s ∨
          startsWithL "Kind:".data s then
        vttLoop fuel rest counter
      else if containsSub "-->".data s then
        let p := takeText rest
        (⟨toDecimal counter⟩ : String) :: (⟨s⟩ : String) ::
          (⟨joinNL (p.1.map String.data)⟩ : String) :: "" ::
            vttLoop fuel p.2 (counter + 1)
      else vttLoop fuel rest counter

/-- The VTT-to-SRT conversion (video_utils.py lines 382-406):
`content.split('\n')`, the numbering loop with `counter` starting at 1, and
`'\n'.join(srt_lines)`. -/
def vttToSrt (content : String) : String :=
  let lines := (splitNL content.data).map (fun l => (⟨l⟩ : String))
  ⟨joinNL ((vttLoop lines.length lines 1).map String.data)⟩

/-! ### Structure of the decode loop -/

/-- The decode loop writes the saved-frame names in order: with `c` saves
among the next `n` frames, the names are `frameName sc, …, frameName
(sc + c - 1)`. -/
lemma decodeGo_eq (I : ℕ) : ∀ (n fc sc : ℕ),
    decodeGo I n fc sc = (List.range (cnt I n fc)).map (fun j => frameName (sc + j)) := by
  intro n
  induction n with
  | zero => intro fc sc; rfl
  | succ n ih =>
    intro fc sc
    by_cases h : fc % I = 0
    · simp only [decodeGo, cnt, if_pos h, ih (fc + 1) (sc + 1)]
      rw [add_comm 1 (cnt I n (fc + 1)), List.range_succ_eq_map, List.map_cons, List.map_map]
      refine congrArg₂ List.cons (by simp) ?_
      refine List.map_congr_left ?_
      intro j hj
      simp only [Function.comp_apply]
      congr 1
      omega
    · simp only [decodeGo, cnt, if_neg h, ih (fc + 1) sc, zero_add]

/-- At stride 1, every iteration saves. -/
lemma cnt_one : ∀ n fc, cnt 1 n fc = n := by
  intro n
  induction n with
  | zero => intro fc; rfl
  | succ n ih =>
    intro fc
    show (if fc % 1 = 0 then 1 else 0) + cnt 1 n (fc + 1) = n + 1
    rw [Nat.mod_one, if_pos rfl, ih (fc + 1)]
    omega

/-- `cnt` depends on the starting counter only through its residue. -/
lemma cnt_mod (k : ℕ) : ∀ n fc, cnt k n fc = cnt k n (fc % k) := by
  intro n
  induction n with
  | zero => intro fc; rfl
  | succ n ih =>
    intro fc
    simp only [cnt]
    have h1 : fc % k % k = fc % k := Nat.mod_mod_of_dvd _ dvd_rfl
    have h2 : cnt k n (fc + 1) = cnt k n (fc % k + 1) := by
      rw [ih (fc + 1), ih (fc % k + 1)]
      congr 1
      conv_lhs => rw [Nat.add_mod]
      conv_rhs => rw [Nat.add_mod]
      rw [h1]
    rw [h1, h2]

/-- Counting window: starting at counter `j` with `1 ≤ j ≤ k`, the number of
multiples of `k` among the next `n` counters is `(n + j - 1) / k`. -/
lemma cnt_window (k : ℕ) (hk : 2 ≤ k) :
    ∀ n j, 1 ≤ j → j ≤ k → cnt k n j = (n + j - 1) / k := by
  intro n
  induction n with
  | zero =>
    intro j h1 h2
    show 0 = (0 + j - 1) / k
    rw [Nat.div_eq_of_lt (by omega)]
  | succ n ih =>
    intro j h1 h2
    by_cases hj : j = k
    · subst hj
      have hmod : j % j = 0 := Nat.mod_self j
      simp only [cnt, if_pos hmod]
      have hshift : cnt j n (j + 1) = cnt j n 1 := by
        rw [cnt_mod j n (j + 1)]
        congr 1
        rw [Nat.add_comm j 1, Nat.add_mod_right, Nat.mod_eq_of_lt (by omega)]
      rw [hshift, ih 1 le_rfl (by omega)]
      have he : n + 1 + j - 1 = n + j := by omega
      have he2 : n + 1 - 1 = n := by omega
      rw [he, he2, Nat.add_div_right n (by omega)]
      omega
    · have hjk : j < k := lt_of_le_of_ne h2 hj
      have hmod : j % k = j := Nat.mod_eq_of_lt hjk
      have hne : ¬ j % k = 0 := by omega
      simp only [cnt, if_neg hne, Nat.zero_add]
      rw [ih (j + 1) (by omega) (by omega)]
      have he : n + (j + 1) - 1 = n + 1 + j - 1 := by omega
      rw [he]

/-- Closed form for the number of saved frames: at stride `k ≥ 1`, a video of
`M + 1` decoded frames yields `M / k + 1` saved frames (the ceiling of
`(M + 1) / k`). -/
lemma savedCount_succ (k M : ℕ) (hk : 1 ≤ k) : savedCount (M + 1) k = M / k + 1 := by
  by_cases hk1 : k = 1
  · subst hk1
    show cnt 1 (M + 1) 0 = M / 1 + 1
    rw [cnt_one, Nat.div_one]
  · have hk2 : 2 ≤ k := by omega
    show cnt k (M + 1) 0 = M / k + 1
    have h0 : (0 : ℕ) % k = 0 := Nat.zero_mod k
    simp only [cnt, if_pos h0, Nat.zero_add]
    rw [cnt_window k hk2 M 1 le_rfl (by omega)]
    have he : M + 1 - 1 = M := by omega
    rw [he]
    omega

/-- A number below `10 ^ d` renders to at most `d` decimal digits. -/
lemma toDecimalAux_len : ∀ (fuel n d : ℕ), 1 ≤ d → n < 10 ^ d →
    (toDecimalAux fuel n).length ≤ d := by
  intro fuel
  induction fuel with
  | zero => intro n d h1 h2; simp [toDecimalAux]
  | succ fuel ih =>
    intro n d h1 h2
    by_cases hn : n < 10
    · simp only [toDecimalAux, if_pos hn, List.length_singleton]
      exact h1
    · have hd2 : 2 ≤ d := by
        by_contra hlt
        have hd1 : d = 1 := by omega
        rw [hd1, pow_one] at h2
        omega
      simp only [toDecimalAux, if_neg hn, List.length_append, List.length_singleton]
      have hdiv : n / 10 < 10 ^ (d - 1) := by
        rw [Nat.div_lt_iff_lt_mul (by omega)]
        calc n < 10 ^ d := h2
        _ = 10 ^ (d - 1) * 10 := by
              rw [← pow_succ]
              congr 1
              omega
      have := ih (n / 10) (d - 1) (by omega) hdiv
      omega

/-- Below one million saved frames, each filename has exactly 17 characters:
`frame_n` + six zero-padded digits + `.jpg`. -/
lemma frameName_length (k : ℕ) (hk : k < 1000000) : (frameName k).length = 17 := by
  have hlen : (toDecimal k).length ≤ 6 :=
    toDecimalAux_len (k + 1) k 6 (by omega) (by omega)
  show (frameNameL k).length = 17
  simp [frameNameL]
  omega

/-- C7: The decode loop writes frame filenames with strictly increasing,
gap-free saved indices: the list of filenames written for a video of `n`
decoded frames at any stride `I` is exactly `frame_n000000.jpg,
frame_n000001.jpg, …` up to the number of saved frames, the k-th written
name carrying index `k - 1`; and (below the million-frame mark) every name
is zero-padded to the fixed width of six digits, 17 characters in all. -/
theorem decode_frames_sequential (n I : ℕ) :
    decodeFrames n I = (List.range (savedCount n I)).map frameName ∧
    ∀ k, k < 1000000 → (frameName k).length = 17 := by
  constructor
  · show decodeGo I n 0 0 = _
    rw [decodeGo_eq]
    exact List.map_congr_left (fun j _ => by rw [Nat.zero_add])
  · intro k hk
    exact frameName_length k hk

/-- Witness for C7 at `n = 7`, `I = 2`, `k = 3`. -/
theorem decode_frames_sequential_witness :
    decodeFrames 7 2 = (List.range (savedCount 7 2)).map frameName ∧
    (frameName 3).length = 17 :=
  ⟨(decode_frames_sequential 7 2).1, (decode_frames_sequential 7 2).2 3 (by decide)⟩

/-- C6: When the source frame rate is at most the configured target rate, the
computed sampling stride is 1 and every decoded frame is saved. -/
theorem decode_stride_one_saves_all (fps targetFps : ℚ) (n : ℕ) (h : fps ≤ targetFps) :
    frameIntervalN fps targetFps = 1 ∧
    (decodeFrames n (frameIntervalN fps targetFps)).length = n := by
  have hint : frameIntervalN fps targetFps = 1 := by
    unfold frameIntervalN frameInterval
    rw [if_neg (not_lt.mpr h)]
    rfl
  refine ⟨hint, ?_⟩
  rw [hint]
  show (decodeGo 1 n 0 0).length = n
  rw [decodeGo_eq, List.length_map, List.length_range]
  exact cnt_one n 0

/-- Witness for C6 at `fps = targetFps = 24`, `n = 5`. -/
theorem decode_stride_one_saves_all_witness :
    frameIntervalN 24 24 = 1 ∧ (decodeFrames 5 (frameIntervalN 24 24)).length = 5 :=
  decode_stride_one_saves_all 24 24 5 le_rfl

/-! ### The sampling stride -/

/-- Round-half-to-even never goes below the floor. -/
lemma rndHalfEven_ge_floor (q : ℚ) : ⌊q⌋ ≤ rndHalfEven q := by
  show ⌊q⌋ ≤ if q - ⌊q⌋ < 1 / 2 then ⌊q⌋
    else if 1 / 2 < q - ⌊q⌋ then ⌊q⌋ + 1
    else if 2 ∣ ⌊q⌋ then ⌊q⌋ else ⌊q⌋ + 1
  split
  · exact le_rfl
  · split
    · omega
    · split
      · exact le_rfl
      · omega

/-- C10: With positive source and target rates the computed stride is at
least 1 — the `frame_count % frame_interval` test never divides by zero —
and the first decoded frame of a nonempty video is always saved. -/
theorem frame_interval_ge_one (fps targetFps : ℚ) (h1 : 0 < fps) (h2 : 0 < targetFps) :
    1 ≤ frameIntervalN fps targetFps ∧
    ∀ n : ℕ, 0 < n →
      (decodeFrames n (frameIntervalN fps targetFps)).head? = some (frameName 0) := by
  constructor
  · unfold frameIntervalN frameInterval
    by_cases hlt : targetFps < fps
    · rw [if_pos hlt]
      have hq : 1 < fps / targetFps := (one_lt_div h2).mpr hlt
      have hfl : (1 : ℤ) ≤ ⌊fps / targetFps⌋ := by
        rw [Int.le_floor]
        exact_mod_cast hq.le
      have := rndHalfEven_ge_floor (fps / targetFps)
      omega
    · rw [if_neg hlt]
      rfl
  · intro n hn
    obtain ⟨m, rfl⟩ : ∃ m, n = m + 1 := ⟨n - 1, by omega⟩
    show (decodeGo _ (m + 1) 0 0).head? = _
    simp [decodeGo, Nat.zero_mod]

/-- Witness for C10 at `fps = 30`, `targetFps = 12`, `n = 3`. -/
theorem frame_interval_ge_one_witness :
    1 ≤ frameIntervalN 30 12 ∧
    (decodeFrames 3 (frameIntervalN 30 12)).head? = some (frameName 0) :=
  ⟨(frame_interval_ge_one 30 12 (by norm_num) (by norm_num)).1,
   (frame_interval_ge_one 30 12 (by norm_num) (by norm_num)).2 3 (by norm_num)⟩

/-! ### Frame counts versus duration × target rate -/

/-- C3 counterexample: at `fps = 30`, `target = 9` (target strictly below the
source rate) and a 300-frame (10-second) video, the stride rounds `30 / 9`
down to 3, so 100 frames are saved, while `duration × target = 90`: the
saved count is off by 10 frames, not within one frame of rounding. -/
theorem decode_frame_count_spec_counterexample :
    (9 : ℚ) < 30 ∧
    ¬ |((decodeFrames 300 (frameIntervalN 30 9)).length : ℚ) - 300 / 30 * 9| ≤ 1 := by
  have hdiv : (30 : ℚ) / 9 = 10 / 3 := by norm_num
  have hfl : ⌊(10 / 3 : ℚ)⌋ = 3 := by
    rw [Int.floor_eq_iff]
    norm_num
  have hrnd : rndHalfEven (10 / 3 : ℚ) = 3 := by
    simp only [rndHalfEven, hfl]
    norm_num
  have hI : frameIntervalN 30 9 = 3 := by
    unfold frameIntervalN frameInterval
    rw [if_pos (by norm_num : (9 : ℚ) < 30), hdiv, hrnd]
    rfl
  have hlen : (decodeFrames 300 3).length = 100 := by
    show (decodeGo 3 300 0 0).length = 100
    rw [decodeGo_eq, List.length_map, List.length_range]
    show savedCount (299 + 1) 3 = 100
    rw [savedCount_succ 3 299 (by omega)]
  refine ⟨by norm_num, ?_⟩
  rw [hI, hlen]
  norm_num

/-- C3 amended: when the target rate divides the source rate exactly
(`fps = k × target` for a whole number `k`), the stride is exactly `k` and
the saved-frame count is within one frame of `duration × target`. -/
theorem decode_frame_count_integral_ratio (fps targetFps : ℚ) (k N : ℕ)
    (h2 : 0 < targetFps) (hlt : targetFps < fps) (hk : fps = (k : ℚ) * targetFps)
    (hN : 0 < N) :
    |((decodeFrames N (frameIntervalN fps targetFps)).length : ℚ) -
        (N : ℚ) / fps * targetFps| ≤ 1 := by
  have hk0 : 0 < k := by
    rcases Nat.eq_zero_or_pos k with h0 | h0
    · rw [h0] at hk
      push_cast at hk
      rw [zero_mul] at hk
      rw [hk] at hlt
      linarith
    · exact h0
  have hkq : (0 : ℚ) < (k : ℚ) := by exact_mod_cast hk0
  have ht0 : targetFps ≠ 0 := ne_of_gt h2
  have hkne : (k : ℚ) ≠ 0 := ne_of_gt hkq
  have hdiv : fps / targetFps = (k : ℚ) := by
    rw [hk, mul_div_assoc, div_self ht0, mul_one]
  have hfl : ⌊(k : ℚ)⌋ = (k : ℤ) := Int.floor_natCast k
  have hrnd : rndHalfEven ((k : ℕ) : ℚ) = (k : ℤ) := by
    simp only [rndHalfEven, hfl]
    norm_num
  have hI : frameIntervalN fps targetFps = k := by
    unfold frameIntervalN frameInterval
    rw [if_pos hlt, hdiv, hrnd, Int.toNat_natCast]
  obtain ⟨M, rfl⟩ : ∃ M, N = M + 1 := ⟨N - 1, by omega⟩
  have hlen : (decodeFrames (M + 1) k).length = M / k + 1 := by
    show (decodeGo k (M + 1) 0 0).length = _
    rw [decodeGo_eq, List.length_map, List.length_range]
    exact savedCount_succ k M hk0
  rw [hI, hlen]
  have hNf : ((M + 1 : ℕ) : ℚ) / fps * targetFps = ((M : ℚ) + 1) / (k : ℚ) := by
    rw [hk]
    push_cast
    field_simp
    ring
  rw [hNf]
  have hdm : k * (M / k) + M % k = M := Nat.div_add_mod M k
  have hr : M % k < k := Nat.mod_lt M hk0
  have hM : (M : ℚ) = (k : ℚ) * ((M / k : ℕ) : ℚ) + ((M % k : ℕ) : ℚ) := by
    exact_mod_cast hdm.symm
  have hsplit : ((M : ℚ) + 1) / (k : ℚ) =
      ((M / k : ℕ) : ℚ) + (((M % k : ℕ) : ℚ) + 1) / (k : ℚ) := by
    rw [hM]
    field_simp
    ring
  rw [hsplit]
  have hle : (((M % k : ℕ) : ℚ) + 1) / (k : ℚ) ≤ 1 := by
    rw [div_le_one hkq]
    exact_mod_cast (by omega : M % k + 1 ≤ k)
  have hge : 0 ≤ (((M % k : ℕ) : ℚ) + 1) / (k : ℚ) := by positivity
  have heq : ((M / k + 1 : ℕ) : ℚ) -
      (((M / k : ℕ) : ℚ) + (((M % k : ℕ) : ℚ) + 1) / (k : ℚ)) =
      1 - (((M % k : ℕ) : ℚ) + 1) / (k : ℚ) := by
    push_cast
    ring
  rw [heq, abs_le]
  constructor
  · linarith
  · linarith

/-- Witness for the amended C3 at `fps = 30`, `target = 10`, `k = 3`,
`N = 300`. -/
theorem decode_frame_count_integral_ratio_witness :
    |((decodeFrames 300 (frameIntervalN 30 10)).length : ℚ) -
        (300 : ℚ) / 30 * 10| ≤ 1 := by
  have h := decode_frame_count_integral_ratio 30 10 3 300 (by norm_num) (by norm_num)
    (by norm_num) (by norm_num)
  exact_mod_cast h

/-! ### `load_video` local branch: claims C1, C2, C5, C8 -/

/-- `os.makedirs` never changes an existing entry at another (or the same,
already existing) path. -/
lemma mkdirs_preserves_some (fs : FS) (d p : String) (e : Entry) (h : fs p = some e) :
    mkdirs fs d p = some e := by
  unfold mkdirs
  cases hd : fs d with
  | some _ => exact h
  | none =>
    show (if p = d then some Entry.dir else fs p) = some e
    by_cases hpd : p = d
    · rw [hpd] at h
      rw [h] at hd
      cases hd
    · rw [if_neg hpd]
      exact h

/-- C5: Loading an existing local video file copies it to
`{root}/raw/{basename}` with identical byte content, leaves the source
entry unchanged, and completes without raising. -/
theorem load_video_local_copy_correct (root : String) (fs : FS) (src : String) (c : List ℕ)
    (hf : fs src = some (Entry.file c))
    (hne : pathJoin (pathJoin root "raw") (basenameStr src) ≠ src) :
    (loadVideoLocal root fs src false none).1
        (pathJoin (pathJoin root "raw") (basenameStr src)) = some (Entry.file c) ∧
    (loadVideoLocal root fs src false none).1 src = fs src ∧
    (loadVideoLocal root fs src false none).2 = Except.ok none := by
  have h1 : mkdirs fs (pathJoin root "raw") src = some (Entry.file c) :=
    mkdirs_preserves_some fs (pathJoin root "raw") src (Entry.file c) hf
  simp only [loadVideoLocal, h1, if_neg hne, Bool.false_eq_true, if_false]
  refine ⟨?_, ?_, trivial⟩
  · show (if pathJoin (pathJoin root "raw") (basenameStr src) =
        pathJoin (pathJoin root "raw") (basenameStr src) then some (Entry.file c)
      else mkdirs fs (pathJoin root "raw") (pathJoin (pathJoin root "raw") (basenameStr src))) =
        some (Entry.file c)
    rw [if_pos rfl]
  · show (if src = pathJoin (pathJoin root "raw") (basenameStr src) then some (Entry.file c)
      else mkdirs fs (pathJoin root "raw") src) = fs src
    rw [if_neg (fun hx => hne hx.symm), h1, hf]

/-- Witness for C5: `clip.mp4` lands at `db/raw/clip.mp4` byte-identical,
with the source untouched. -/
theorem load_video_local_copy_correct_witness :
    (loadVideoLocal "db" demoFS "clip.mp4" false none).1 "db/raw/clip.mp4" =
        some (Entry.file [104, 105, 0, 255]) ∧
    (loadVideoLocal "db" demoFS "clip.mp4" false none).1 "clip.mp4" = demoFS "clip.mp4" ∧
    (loadVideoLocal "db" demoFS "clip.mp4" false none).2 = Except.ok none := by
  have h := load_video_local_copy_correct "db" demoFS "clip.mp4" [104, 105, 0, 255]
    rfl (by decide)
  exact h

/-- C1 (failing-input evaluation): on an existing local video file the local
branch of `load_video` runs to the end of the function body and returns
Python's `None`, not the absolute path its docstring promises. -/
theorem load_video_local_returns_none :
    demoFS "clip.mp4" = some (Entry.file [104, 105, 0, 255]) ∧
    (loadVideoLocal "db" demoFS "clip.mp4" false none).2 = Except.ok none :=
  ⟨rfl, rfl⟩

/-- C2 (failing-input evaluation): a source that is neither an `http(s)` URL
nor an existing path falls off the end of `load_video` — the call returns
`None` instead of raising. -/
theorem load_video_missing_source_silent :
    isUrlSource "ghost.mp4" = false ∧
    emptyFS "ghost.mp4" = none ∧
    (loadVideoLocal "db" emptyFS "ghost.mp4" false none).2 = Except.ok none :=
  ⟨rfl, rfl, rfl⟩

/-- C8: With a local video and a subtitle source whose lowercased name does
not end in `.srt`, `load_video` raises `ValueError` after copying only the
video: the final filesystem holds exactly the raw directory and the copied
video, no subtitle. -/
theorem load_video_rejects_non_srt_subtitle (root : String) (fs : FS) (src subSrc : String)
    (c : List ℕ) (hf : fs src = some (Entry.file c))
    (hne : pathJoin (pathJoin root "raw") (basenameStr src) ≠ src)
    (hsub : subSrc ≠ "")
    (hext : endsWithL ".srt".data (lowerL subSrc.data) = false) :
    loadVideoLocal root fs src true (some subSrc) =
      (fsWrite (mkdirs fs (pathJoin root "raw"))
        (pathJoin (pathJoin root "raw") (basenameStr src)) (Entry.file c),
       Except.error PyError.valueError) := by
  have h1 : mkdirs fs (pathJoin root "raw") src = some (Entry.file c) :=
    mkdirs_preserves_some fs (pathJoin root "raw") src (Entry.file c) hf
  simp only [loadVideoLocal, h1, if_neg hne, if_neg hsub, hext, if_pos rfl, if_true]

/-- Witness for C8: `subs.vtt` is rejected and never copied. -/
theorem load_video_rejects_non_srt_subtitle_witness :
    loadVideoLocal "db" demoFS "clip.mp4" true (some "subs.vtt") =
      (fsWrite (mkdirs demoFS (pathJoin "db" "raw"))
        (pathJoin (pathJoin "db" "raw") (basenameStr "clip.mp4"))
        (Entry.file [104, 105, 0, 255]),
       Except.error PyError.valueError) :=
  load_video_rejects_non_srt_subtitle "db" demoFS "clip.mp4" "subs.vtt" [104, 105, 0, 255]
    rfl (by decide) (by decide) (by decide)

/-! ### VTT-to-SRT: claim C4 -/

/-- C4 (failing-input evaluation): on a two-cue WEBVTT input the conversion
numbers the entries 1, 2 and keeps the cues in order, but it emits the VTT
timing lines verbatim — the milliseconds stay period-separated
(`00:00:01.000`), and no comma ever appears in the output, so the time
ranges are not in the `HH:MM:SS,mmm` SRT format the claim states. -/
theorem vtt_to_srt_keeps_vtt_timestamps :
    vttToSrt "WEBVTT\n\n00:00:01.000 --> 00:00:04.000\nHello world\n\n00:00:04.000 --> 00:00:06.000\nBye" =
      "1\n00:00:01.000 --> 00:00:04.000\nHello world\n\n2\n00:00:04.000 --> 00:00:06.000\nBye\n" ∧
    containsSub ",".data
      ("1\n00:00:01.000 --> 00:00:04.000\nHello world\n\n2\n00:00:04.000 --> 00:00:06.000\nBye\n").data
      = false := by
  constructor
  · decide
  · decide

/-! ### `_is_youtube_url`: claim C9 -/

/-- `takeWhile` over a block of accepted characters stops exactly at the
first rejected one. -/
lemma takeWhile_append_stop (p : Char → Bool) (l : List Char) (d : Char) (r : List Char)
    (hl : ∀ c ∈ l, p c = true) (hd : p d = false) :
    List.takeWhile p (l ++ d :: r) = l := by
  induction l with
  | nil => simp [List.takeWhile_cons, hd]
  | cons c cs ih =>
    have hc : p c = true := hl c (List.mem_cons_self c cs)
    simp only [List.cons_append, List.takeWhile_cons, hc, if_true]
    rw [ih (fun x hx => hl x (List.mem_cons_of_mem c hx))]

/-- Splitting at the first colon of an `https:`-prefixed string. -/
lemma splitColon_https (t : List Char) :
    splitColon ('h' :: 't' :: 't' :: 'p' :: 's' :: ':' :: t) =
      (['h', 't', 't', 'p', 's'], ':' :: t) := by
  simp [splitColon]

/-- `https` is recognised as a scheme and stripped. -/
lemma schemeRest_https (t : List Char) :
    schemeRest ('h' :: 't' :: 't' :: 'p' :: 's' :: ':' :: t) = t := by
  simp only [schemeRest, splitColon_https]
  rw [if_pos]
  decide

/-- Splitting at the first colon of an `http:`-prefixed string. -/
lemma splitColon_http (t : List Char) :
    splitColon ('h' :: 't' :: 't' :: 'p' :: ':' :: t) = (['h', 't', 't', 'p'], ':' :: t) := by
  simp [splitColon]

/-- `http` is recognised as a scheme and stripped. -/
lemma schemeRest_http (t : List Char) :
    schemeRest ('h' :: 't' :: 't' :: 'p' :: ':' :: t) = t := by
  simp only [schemeRest, splitColon_http]
  rw [if_pos]
  decide

/-- `takeWhile` keeps a list all of whose characters are accepted. -/
lemma takeWhile_all (p : Char → Bool) (l : List Char) (hl : ∀ c ∈ l, p c = true) :
    List.takeWhile p l = l := by
  induction l with
  | nil => rfl
  | cons c cs ih =>
    have hc : p c = true := hl c (List.mem_cons_self c cs)
    simp only [List.takeWhile_cons, hc, if_true]
    rw [ih (fun x hx => hl x (List.mem_cons_of_mem c hx))]

/-- The netloc of `{scheme}://{host}{tail}` is `host` for either scheme
`load_video` admits, whenever the host contains no authority terminator and
the tail is empty or begins with one (`/`, `?` or `#`). -/
lemma netlocL_scheme (pre host tail : List Char)
    (hpre : pre = "http://".data ∨ pre = "https://".data)
    (hhost : ∀ c ∈ host, netChar c = true)
    (htail : tail = [] ∨ ∃ c t, tail = c :: t ∧ netChar c = false) :
    netlocL (pre ++ host ++ tail) = host := by
  have htake : List.takeWhile netChar (host ++ tail) = host := by
    rcases htail with h0 | ⟨c, t, hct, hc⟩
    · rw [h0, List.append_nil]
      exact takeWhile_all netChar host hhost
    · rw [hct]
      exact takeWhile_append_stop netChar host c t hhost hc
  rcases hpre with h | h
  · rw [h]
    show netlocL ('h' :: 't' :: 't' :: 'p' :: ':' :: '/' :: '/' :: (host ++ tail)) = host
    unfold netlocL
    rw [schemeRest_http]
    exact htake
  · rw [h]
    show netlocL ('h' :: 't' :: 't' :: 'p' :: 's' :: ':' :: '/' :: '/' :: (host ++ tail)) = host
    unfold netlocL
    rw [schemeRest_https]
    exact htake

/-- C9: `_is_youtube_url` is a bare lowercased suffix test on the hostname:
for a URL of either scheme `load_video` admits, with any terminator-free
hostname and any (possibly empty) remainder, the result is exactly
`hostname.lower().endswith(('youtube.com', 'youtu.be'))` — true whenever the
hostname merely ends in either character sequence, including hostnames of
unrelated domains such as `evilyoutube.com` or `evilyoutu.be`, with no
exact-match or dot-separated-subdomain requirement. -/
theorem youtube_url_accepts_suffix_hosts (pre host tail : List Char)
    (hpre : pre = "http://".data ∨ pre = "https://".data)
    (hhost : ∀ c ∈ host, netChar c = true)
    (htail : tail = [] ∨ ∃ c t, tail = c :: t ∧ netChar c = false) :
    isYoutubeUrl ⟨pre ++ host ++ tail⟩ =
      (endsWithL "youtube.com".data (lowerL host) ||
       endsWithL "youtu.be".data (lowerL host)) := by
  show (endsWithL "youtube.com".data (lowerL (netlocL (pre ++ host ++ tail))) ||
    endsWithL "youtu.be".data (lowerL (netlocL (pre ++ host ++ tail)))) = _
  rw [netlocL_scheme pre host tail hpre hhost htail]

/-- Witness for C9: the unrelated `youtu.be`-suffixed host `evilyoutu.be` is
accepted. -/
theorem youtube_url_accepts_suffix_hosts_witness :
    (∀ c ∈ "evilyoutu.be".data, netChar c = true) ∧
    isYoutubeUrl ⟨"https://".data ++ "evilyoutu.be".data ++ "/watch".data⟩ = true := by
  refine ⟨by decide, ?_⟩
  rw [youtube_url_accepts_suffix_hosts "https://".data "evilyoutu.be".data "/watch".data
    (Or.inr rfl) (by decide) (Or.inr ⟨'/', "watch".data, rfl, rfl⟩)]
  decide
